import Mathlib

/-!
Verification development for `multiqc/modules/isoseq/refine.py`, centred on
`RefineMixin.parse_refine_log`.

Modelling conventions:
* Python floats are modelled by exact rationals `ℚ`; `math.sqrt` is modelled by
  `Real.sqrt` on `ℝ`.
* A numeric CSV cell is modelled by its parse outcome: `some q` when
  `float(cell)` succeeds with value `q`, and `none` when `float` raises
  `ValueError`.
* Python dicts (with distinct keys, insertion-ordered) are modelled by
  association lists `List (String × α)`; assignment `d[k] = v` is `dinsert`
  (replace in place, else append), matching CPython semantics.
* `defaultdict(int)` frequency tables are association lists updated by
  `incrTab`.
* `float("inf")` / `float("-inf")` initial values of `mins` / `maxs` are the
  top / bottom elements of `WithTop ℚ` / `WithBot ℚ`.
* An uncaught Python exception is modelled by `Except.error`; `logger.error`
  calls are modelled by a returned list of `Warning`s.
-/

namespace IsoseqRefine

/-- Values stored in per-sample record dictionaries: JSON numbers and the
`min_/mean_/max_` statistics (`num`), the `std_` statistics which are produced
by `math.sqrt` (`real`), JSON strings (`str`), the `strand_counts` /
`primer_counts` tables (`tab`), and the infinities a Python float can hold
(`inf` / `ninf`). -/
inductive Val where
  | num : ℚ → Val
  | real : ℝ → Val
  | str : String → Val
  | tab : List (String × ℕ) → Val
  | inf : Val
  | ninf : Val

/-- A Python dict keyed by strings, as an insertion-ordered association list
with distinct keys. -/
abbrev Dict (α : Type) : Type := List (String × α)

/-- A per-sample record dictionary (a decoded JSON object, the aggregate dict
`d` of the source, or a merged record). -/
abbrev Rec : Type := Dict Val

/-- Dict lookup, first match (Python `d[k]` / `d.get(k)`). -/
def dlookup (d : Dict α) (k : String) : Option α :=
  match d with
  | [] => none
  | (k', v) :: rest => if k' = k then some v else dlookup rest k

/-- Python `d.get(k, dflt)`. -/
def lookupD (d : Dict α) (k : String) (dflt : α) : α :=
  (dlookup d k).getD dflt

/-- Python dict assignment `d[k] = v`: replace the value of an existing key in
place, otherwise append the new key at the end. -/
def dinsert (d : Dict α) (k : String) (v : α) : Dict α :=
  match d with
  | [] => [(k, v)]
  | (k', v') :: rest => if k' = k then (k, v) :: rest else (k', v') :: dinsert rest k v

/-- Python `d.keys()`, as the list of keys in insertion order. -/
def keys (d : Dict α) : List String :=
  d.map Prod.fst

/-- Python `base.update(extra)`: fold every binding of `extra` into `base`. -/
def updRec (base extra : Dict α) : Dict α :=
  extra.foldl (fun d kv => dinsert d kv.1 kv.2) base

/-- Python `a.keys() | b.keys()` (set union), iterated in a canonical order. -/
def unionKeys (a b : List String) : List String :=
  a ++ b.filter (fun k => decide (k ∉ a))

/-- Python `a.keys() == b.keys()` (equality of key sets). -/
def keySetEq (a b : List String) : Bool :=
  a.all (fun k => decide (k ∈ b)) && b.all (fun k => decide (k ∈ a))

/-- Model of `defaultdict(int)` increment `t[k] += 1`: bump an existing key in
place, otherwise append the key with count 1. -/
def incrTab (t : List (String × ℕ)) (k : String) : List (String × ℕ) :=
  match t with
  | [] => [(k, 1)]
  | (k', c) :: rest => if k' = k then (k', c + 1) :: rest else (k', c) :: incrTab rest k

/-- Total count held by a frequency table. -/
def sumTab (t : List (String × ℕ)) : ℕ :=
  (t.map Prod.snd).sum

/-- One CSV row of the `.report.csv` file (lines 37–49 of the source).  Each
numeric cell is modelled by the outcome of `float(row[column])`:  `some q` on
success, `none` when `float` raises. -/
structure Row where
  fivelen : Option ℚ
  threelen : Option ℚ
  polyAlen : Option ℚ
  insertlen : Option ℚ
  strand : String
  primer : String
deriving DecidableEq

/-- A CSV row all four of whose numeric cells parsed successfully. -/
structure PRow where
  fivelen : ℚ
  threelen : ℚ
  polyAlen : ℚ
  insertlen : ℚ
  strand : String
  primer : String
deriving DecidableEq

/-- The running statistics the loop keeps for one numeric column:
`counts[c]`, `sums[c]`, `squared_sums[c]`, `mins[c]` (initially
`float("inf")`), `maxs[c]` (initially `float("-inf")`). -/
structure FieldStat where
  count : ℕ
  sum : ℚ
  sqsum : ℚ
  minv : WithTop ℚ
  maxv : WithBot ℚ
deriving DecidableEq

/-- The whole running state of the per-file loop: one `FieldStat` per tracked
numeric column plus the two categorical frequency tables. -/
structure Agg where
  fivelen : FieldStat
  threelen : FieldStat
  polyAlen : FieldStat
  insertlen : FieldStat
  strand_counts : List (String × ℕ)
  primer_counts : List (String × ℕ)
deriving DecidableEq

/-- Initial per-column statistics (lines 27–31 of the source). -/
def initField : FieldStat :=
  { count := 0, sum := 0, sqsum := 0, minv := ⊤, maxv := ⊥ }

/-- Initial running state (lines 27–33 of the source). -/
def initAgg : Agg :=
  { fivelen := initField, threelen := initField, polyAlen := initField,
    insertlen := initField, strand_counts := [], primer_counts := [] }

/-- One numeric-column update of the loop body (lines 41–45):
`counts[c] += 1; sums[c] += v; squared_sums[c] += v**2;
mins[c] = min(mins[c], v); maxs[c] = max(maxs[c], v)`. -/
def stepField (s : FieldStat) (v : ℚ) : FieldStat :=
  { count := s.count + 1
    sum := s.sum + v
    sqsum := s.sqsum + v ^ 2
    minv := min s.minv (v : WithTop ℚ)
    maxv := max s.maxv (v : WithBot ℚ) }

/-- One whole-row update of the loop body (lines 38–49): the four numeric
columns in source order, then the `strand` and `primer` tallies. -/
def stepRow (a : Agg) (r : PRow) : Agg :=
  { fivelen := stepField a.fivelen r.fivelen
    threelen := stepField a.threelen r.threelen
    polyAlen := stepField a.polyAlen r.polyAlen
    insertlen := stepField a.insertlen r.insertlen
    strand_counts := incrTab a.strand_counts r.strand
    primer_counts := incrTab a.primer_counts r.primer }

/-- The single-pass fold over an already-parsed row stream. -/
def foldAgg (rows : List PRow) : Agg :=
  rows.foldl stepRow initAgg

/-- The error raised by `float(row[column])` on an unparseable cell
(`ValueError`, the spec's `MalformedRecord`). -/
inductive Err where
  | malformedRecord
deriving DecidableEq

/-- The two conditions `parse_refine_log` reports through `logger.error`
(lines 68–79). -/
inductive Warning where
  | incompatibleSampleNaming
  | keySetMismatch
deriving DecidableEq

/-- Parse the four numeric cells of a raw row, in the source's column order;
the first failing `float` call aborts the row. -/
def parseRow (r : Row) : Option PRow :=
  match r.fivelen, r.threelen, r.polyAlen, r.insertlen with
  | some a, some b, some c, some d =>
      some { fivelen := a, threelen := b, polyAlen := c, insertlen := d,
             strand := r.strand, primer := r.primer }
  | _, _, _, _ => none

/-- One iteration of `for row in reader` (lines 37–49): parse the numeric
cells, raising `ValueError` on failure, then fold the row in. -/
def stepRowE (a : Agg) (r : Row) : Except Err Agg :=
  match parseRow r with
  | some pr => .ok (stepRow a pr)
  | none => .error .malformedRecord

/-- The whole `for row in reader` loop: an uncaught `ValueError` propagates
out of the loop. -/
def foldRowsE (rows : List Row) (a : Agg) : Except Err Agg :=
  match rows with
  | [] => .ok a
  | r :: rest =>
      match stepRowE a r with
      | .ok a' => foldRowsE rest a'
      | .error e => .error e

/-- Line 55: `mean = sums[column] / counts[column]` (float division). -/
def meanOf (s : FieldStat) : ℚ :=
  s.sum / (s.count : ℚ)

/-- Line 56: `variance = (squared_sums[column] / counts[column]) - mean**2`. -/
def varOf (s : FieldStat) : ℚ :=
  s.sqsum / (s.count : ℚ) - meanOf s ^ 2

/-- Line 57: `std_dev = math.sqrt(variance) if variance > 0 else 0.0`. -/
noncomputable def stdClamp (v : ℚ) : ℝ :=
  if 0 < v then Real.sqrt (v : ℝ) else 0

/-- The standard deviation the source stores for one column. -/
noncomputable def stdevOf (s : FieldStat) : ℝ :=
  stdClamp (varOf s)

/-- View a running minimum (a float that may still be `float("inf")`) as a
stored dict value. -/
def valOfTop (m : WithTop ℚ) : Val :=
  WithTop.recTopCoe Val.inf (fun q => Val.num q) m

/-- View a running maximum (a float that may still be `float("-inf")`) as a
stored dict value. -/
def valOfBot (m : WithBot ℚ) : Val :=
  WithBot.recBotCoe Val.ninf (fun q => Val.num q) m

/-- Lines 51–64: the dict `d` built after the loop, with the sixteen
statistics entries in source order followed by the two frequency tables. -/
noncomputable def finalizeDict (a : Agg) : Rec :=
  [ ("min_fivelen", valOfTop a.fivelen.minv),
    ("mean_fivelen", Val.num (meanOf a.fivelen)),
    ("std_fivelen", Val.real (stdevOf a.fivelen)),
    ("max_fivelen", valOfBot a.fivelen.maxv),
    ("min_threelen", valOfTop a.threelen.minv),
    ("mean_threelen", Val.num (meanOf a.threelen)),
    ("std_threelen", Val.real (stdevOf a.threelen)),
    ("max_threelen", valOfBot a.threelen.maxv),
    ("min_polyAlen", valOfTop a.polyAlen.minv),
    ("mean_polyAlen", Val.num (meanOf a.polyAlen)),
    ("std_polyAlen", Val.real (stdevOf a.polyAlen)),
    ("max_polyAlen", valOfBot a.polyAlen.maxv),
    ("min_insertlen", valOfTop a.insertlen.minv),
    ("mean_insertlen", Val.num (meanOf a.insertlen)),
    ("std_insertlen", Val.real (stdevOf a.insertlen)),
    ("max_insertlen", valOfBot a.insertlen.maxv),
    ("strand_counts", Val.tab a.strand_counts),
    ("primer_counts", Val.tab a.primer_counts) ]

/-- Lines 22–24: the JSON loop.  Each discovered file stores its decoded
payload under its sample name; a later file with the same name overwrites. -/
def buildJsonData (files : List (String × Rec)) : Dict Rec :=
  files.foldl (fun d f => dinsert d f.1 f.2) []

/-- Lines 26–66: the CSV loop, threading the accumulated `csv_data`.  The
`if counts:` guard is non-emptiness of the `counts` defaultdict; under the
fixed four-column schema that is `agg.fivelen.count ≠ 0`.  An uncaught
`ValueError` from `float` aborts the whole loop. -/
noncomputable def buildCsvAux (acc : Dict Rec) (files : List (String × List Row)) :
    Except Err (Dict Rec) :=
  match files with
  | [] => .ok acc
  | (n, rows) :: rest =>
      match foldRowsE rows initAgg with
      | .error e => .error e
      | .ok agg =>
          if agg.fivelen.count = 0 then buildCsvAux acc rest
          else buildCsvAux (dinsert acc n (finalizeDict agg)) rest

/-- The complete CSV loop starting from the empty `csv_data` dict. -/
noncomputable def buildCsvData (files : List (String × List Row)) : Except Err (Dict Rec) :=
  buildCsvAux [] files

/-- Lines 68–79: the two `logger.error` calls.  The key-set comparison is in
an `elif`, so it is skipped entirely when
`config.use_filename_as_sample_name` is set. -/
def warnsOf (flag : Bool) (jk ck : List String) : List Warning :=
  if flag then [.incompatibleSampleNaming]
  else if keySetEq jk ck then [] else [.keySetMismatch]

/-- The merged record for one sample (lines 82–83):
`json_data.get(s, {})` updated with `csv_data.get(s, {})`. -/
def mergedRecOf (jd cd : Dict Rec) (s : String) : Rec :=
  updRec (lookupD jd s []) (lookupD cd s [])

/-- Lines 80–83: the merged `data` dict over the union of the key sets.
This is the value-level result; the aliasing of `json_data`'s dict objects is
modelled separately by `mergeH` below. -/
def mergeData (jd cd : Dict Rec) : Dict Rec :=
  (unionKeys (keys jd) (keys cd)).foldl
    (fun data s => dinsert data s (mergedRecOf jd cd s)) []

/-- The whole of `parse_refine_log` (lines 18–86): build `json_data`, build
`csv_data` (an uncaught `ValueError` aborts the call), log warnings, and
return the merged data together with the logged warnings. -/
noncomputable def parse_refine_log (flag : Bool) (jsonFiles : List (String × Rec))
    (csvFiles : List (String × List Row)) :
    Except Err (Dict Rec × List Warning) :=
  match buildCsvData csvFiles with
  | .error e => .error e
  | .ok cd =>
      .ok (mergeData (buildJsonData jsonFiles) cd,
        warnsOf flag (keys (buildJsonData jsonFiles)) (keys cd))

/-! ### Reference-semantics model of the merge (lines 80–83)

In Python, `data[s_name] = json_data.get(s_name, {})` stores a reference to
the very dict object held by `json_data`, and the subsequent
`data[s_name].update(...)` mutates that object in place.  To reason about
this, `mergeH` re-expresses lines 80–83 over an explicit heap of record
objects: `json_data` maps sample names to heap addresses (each `json.load`
yields a fresh object), `csv_data` holds plain values (its dicts are freshly
built per file and only read), and the loop writes the merged record through
the summary's address — or allocates a fresh object when the sample has no
summary. -/

/-- A heap of record objects, addressed by index. -/
abbrev Heap : Type := List Rec

/-- Read the record object at an address (addresses produced by the model are
always in range). -/
def hget (h : Heap) (r : ℕ) : Rec :=
  (h[r]?).getD []

/-- One iteration of the merge loop for sample `s`, over the heap. -/
def mergeHStep (jd : Dict ℕ) (cd : Dict Rec) (st : Heap × Dict ℕ) (s : String) :
    Heap × Dict ℕ :=
  match dlookup jd s with
  | some r => (st.1.set r (updRec (hget st.1 r) (lookupD cd s [])), dinsert st.2 s r)
  | none => (st.1 ++ [updRec [] (lookupD cd s [])], dinsert st.2 s st.1.length)

/-- Lines 80–83 with reference semantics: fold the merge step over the union
of the key sets, returning the final heap and the `data` dict of addresses. -/
def mergeH (h : Heap) (jd : Dict ℕ) (cd : Dict Rec) : Heap × Dict ℕ :=
  (unionKeys (keys jd) (keys cd)).foldl (mergeHStep jd cd) (h, [])

/-! ### Two-pass reference implementation

Per the spec's P1, the reference buffers all values of one column and only
then computes the statistics: the mean first, then the variance as the mean
of squared deviations from that mean, the standard deviation as its square
root, and min/max of the buffered list. -/

/-- Reference mean of a buffered value list. -/
def twoPassMean (l : List ℚ) : ℚ :=
  l.sum / (l.length : ℚ)

/-- Reference variance: mean squared deviation from the (pre-computed) mean. -/
def twoPassVariance (l : List ℚ) : ℚ :=
  ((l.map fun x => (x - twoPassMean l) ^ 2).sum) / (l.length : ℚ)

/-- Reference standard deviation: square root of the reference variance. -/
noncomputable def twoPassStd (l : List ℚ) : ℝ :=
  Real.sqrt ((twoPassVariance l : ℚ) : ℝ)

/-- Reference minimum of the buffered list. -/
def twoPassMin (l : List ℚ) : WithTop ℚ :=
  l.minimum

/-- Reference maximum of the buffered list. -/
def twoPassMax (l : List ℚ) : WithBot ℚ :=
  l.maximum

/-- The statement that a finalized single-pass column statistic agrees with
the two-pass reference on the buffered value list. -/
noncomputable def fieldMatchesTwoPass (st : FieldStat) (l : List ℚ) : Prop :=
  meanOf st = twoPassMean l ∧
  stdevOf st = twoPassStd l ∧
  st.minv = twoPassMin l ∧
  st.maxv = twoPassMax l

/-- The statement that a column's reported standard deviation is the clamped
square root of the source's variance expression: non-negative, `√variance`
when the variance is positive and exactly `0` otherwise. -/
noncomputable def stdClampSpec (st : FieldStat) : Prop :=
  0 ≤ stdevOf st ∧
  (0 < varOf st → stdevOf st = Real.sqrt ((varOf st : ℚ) : ℝ)) ∧
  (¬ 0 < varOf st → stdevOf st = 0)

/-- A CSV row whose `fivelen` cell does not parse as a float. -/
def badRow : Row :=
  { fivelen := none, threelen := some 5, polyAlen := some 20,
    insertlen := some 500, strand := "+", primer := "p1" }

/-- A fully parseable CSV row. -/
def goodRow : Row :=
  { fivelen := some 10, threelen := some 5, polyAlen := some 20,
    insertlen := some 500, strand := "+", primer := "p1" }

/-- Another fully parseable CSV row. -/
def rowB : Row :=
  { fivelen := some 6, threelen := some 7, polyAlen := some 8,
    insertlen := some 9, strand := "-", primer := "p2" }

/-- The parsed form of `goodRow`. -/
def pGoodRow : PRow :=
  { fivelen := 10, threelen := 5, polyAlen := 20, insertlen := 500,
    strand := "+", primer := "p1" }

/-- The parsed form of `rowB`. -/
def pRowB : PRow :=
  { fivelen := 6, threelen := 7, polyAlen := 8, insertlen := 9,
    strand := "-", primer := "p2" }

/-- A one-object heap holding one loaded summary record. -/
def c9Heap : Heap :=
  [[("num_reads_fl", Val.num 100)]]

/-! ### Association-list dictionary lemmas -/

theorem dlookup_dinsert_self (d : Dict α) (k : String) (v : α) :
    dlookup (dinsert d k v) k = some v := by
  induction d with
  | nil => simp [dinsert, dlookup]
  | cons kv rest ih =>
      obtain ⟨k', v'⟩ := kv
      by_cases h : k' = k
      · simp [dinsert, dlookup, h]
      · simp [dinsert, dlookup, h, ih]

theorem dlookup_dinsert_ne (d : Dict α) (k k' : String) (v : α) (h : k' ≠ k) :
    dlookup (dinsert d k v) k' = dlookup d k' := by
  induction d with
  | nil =>
      simp only [dinsert, dlookup]
      rw [if_neg (fun hc => h hc.symm)]
  | cons kv rest ih =>
      obtain ⟨k0, v0⟩ := kv
      by_cases h0 : k0 = k
      · subst h0
        simp only [dinsert, if_pos rfl, dlookup]
        rw [if_neg (fun hc => h hc.symm), if_neg (fun hc => h hc.symm)]
      · simp only [dinsert, if_neg h0, dlookup]
        by_cases h1 : k0 = k'
        · rw [if_pos h1, if_pos h1]
        · rw [if_neg h1, if_neg h1, ih]

theorem mem_keys_cons (k0 : String) (v0 : α) (rest : Dict α) (a : String) :
    a ∈ keys ((k0, v0) :: rest) ↔ a = k0 ∨ a ∈ keys rest :=
  List.mem_cons

theorem mem_keys_dinsert (d : Dict α) (k : String) (v : α) (a : String) :
    a ∈ keys (dinsert d k v) ↔ a ∈ keys d ∨ a = k := by
  induction d with
  | nil =>
      show a ∈ keys [(k, v)] ↔ a ∈ keys ([] : Dict α) ∨ a = k
      rw [mem_keys_cons]
      simp [keys]
  | cons kv rest ih =>
      obtain ⟨k0, v0⟩ := kv
      by_cases h0 : k0 = k
      · subst h0
        have e : dinsert ((k0, v0) :: rest) k0 v = (k0, v) :: rest := by
          simp [dinsert]
        rw [e, mem_keys_cons, mem_keys_cons]
        tauto
      · have e : dinsert ((k0, v0) :: rest) k v = (k0, v0) :: dinsert rest k v := by
          simp [dinsert, h0]
        rw [e, mem_keys_cons, mem_keys_cons, ih]
        tauto

theorem mem_keys_foldl_dinsert (f : String → α) (l : List String) (acc : Dict α)
    (a : String) :
    a ∈ keys (l.foldl (fun d s => dinsert d s (f s)) acc) ↔ a ∈ keys acc ∨ a ∈ l := by
  induction l generalizing acc with
  | nil => simp
  | cons s rest ih =>
      simp only [List.foldl_cons, ih, mem_keys_dinsert, List.mem_cons]
      tauto

theorem dlookup_foldl_dinsert_not_mem (f : String → α) (l : List String) (acc : Dict α)
    (s : String) (h : s ∉ l) :
    dlookup (l.foldl (fun d t => dinsert d t (f t)) acc) s = dlookup acc s := by
  induction l generalizing acc with
  | nil => rfl
  | cons t rest ih =>
      simp only [List.mem_cons, not_or] at h
      rw [List.foldl_cons, ih _ h.2, dlookup_dinsert_ne _ _ _ _ h.1]

theorem dlookup_foldl_dinsert_mem (f : String → α) (l : List String) (acc : Dict α)
    (s : String) (h : s ∈ l) :
    dlookup (l.foldl (fun d t => dinsert d t (f t)) acc) s = some (f s) := by
  induction l generalizing acc with
  | nil => cases h
  | cons t rest ih =>
      rw [List.foldl_cons]
      by_cases hr : s ∈ rest
      · exact ih _ hr
      · have hst : s = t := by
          rcases List.mem_cons.mp h with h' | h'
          · exact h'
          · exact absurd h' hr
        subst hst
        rw [dlookup_foldl_dinsert_not_mem _ _ _ _ hr, dlookup_dinsert_self]

theorem mem_unionKeys (x y : List String) (a : String) :
    a ∈ unionKeys x y ↔ a ∈ x ∨ a ∈ y := by
  simp only [unionKeys, List.mem_append, List.mem_filter, decide_eq_true_eq]
  tauto

theorem unionKeys_nodup (x y : List String) (hx : x.Nodup) (hy : y.Nodup) :
    (unionKeys x y).Nodup := by
  refine List.Nodup.append hx (hy.filter _) ?_
  intro a ha hb
  rcases List.mem_filter.mp hb with ⟨-, hdec⟩
  exact (decide_eq_true_eq.mp hdec) ha

theorem keySetEq_iff (a b : List String) :
    keySetEq a b = true ↔ ∀ k, k ∈ a ↔ k ∈ b := by
  simp only [keySetEq, Bool.and_eq_true, List.all_eq_true, decide_eq_true_eq]
  constructor
  · rintro ⟨h1, h2⟩ k
    exact ⟨fun hk => h1 k hk, fun hk => h2 k hk⟩
  · intro h
    exact ⟨fun k hk => (h k).1 hk, fun k hk => (h k).2 hk⟩

/-! ### Update (`dict.update`) lemmas -/

theorem updRec_nil (base : Dict α) : updRec base [] = base := rfl

theorem dlookup_updRec_not_mem (base extra : Dict α) (fld : String)
    (h : fld ∉ keys extra) :
    dlookup (updRec base extra) fld = dlookup base fld := by
  induction extra generalizing base with
  | nil => rfl
  | cons kv rest ih =>
      obtain ⟨k0, v0⟩ := kv
      rw [mem_keys_cons] at h
      push_neg at h
      show dlookup (updRec (dinsert base k0 v0) rest) fld = dlookup base fld
      rw [ih _ h.2, dlookup_dinsert_ne _ _ _ _ h.1]

theorem dlookup_updRec_mem (base extra : Dict α) (fld : String)
    (hnd : (keys extra).Nodup) (h : fld ∈ keys extra) :
    dlookup (updRec base extra) fld = dlookup extra fld := by
  induction extra generalizing base with
  | nil => cases h
  | cons kv rest ih =>
      obtain ⟨k0, v0⟩ := kv
      rw [mem_keys_cons] at h
      have hnd' : k0 ∉ keys rest ∧ (keys rest).Nodup := by
        have e : keys ((k0, v0) :: rest) = k0 :: keys rest := rfl
        rw [e, List.nodup_cons] at hnd
        exact hnd
      show dlookup (updRec (dinsert base k0 v0) rest) fld = dlookup ((k0, v0) :: rest) fld
      rcases h with hfld | hfld
      · subst hfld
        rw [dlookup_updRec_not_mem _ _ _ hnd'.1, dlookup_dinsert_self]
        simp [dlookup]
      · have hne : k0 ≠ fld := fun hc => hnd'.1 (by rw [hc]; exact hfld)
        rw [ih _ hnd'.2 hfld]
        simp only [dlookup, if_neg hne]

theorem mem_keys_updRec (base extra : Dict α) (a : String) :
    a ∈ keys (updRec base extra) ↔ a ∈ keys base ∨ a ∈ keys extra := by
  induction extra generalizing base with
  | nil => simp [updRec, keys]
  | cons kv rest ih =>
      obtain ⟨k0, v0⟩ := kv
      show a ∈ keys (updRec (dinsert base k0 v0) rest) ↔ _
      rw [ih, mem_keys_dinsert, mem_keys_cons]
      tauto

/-! ### Frequency-table lemmas -/

theorem sumTab_incrTab (t : List (String × ℕ)) (k : String) :
    sumTab (incrTab t k) = sumTab t + 1 := by
  induction t with
  | nil => rfl
  | cons kv rest ih =>
      obtain ⟨k0, c⟩ := kv
      by_cases h : k0 = k
      · simp [incrTab, h, sumTab]
        omega
      · simp only [incrTab, if_neg h, sumTab, List.map_cons, List.sum_cons] at *
        omega

theorem sumTab_foldl_incrTab (l : List String) (t : List (String × ℕ)) :
    sumTab (l.foldl incrTab t) = sumTab t + l.length := by
  induction l generalizing t with
  | nil => rfl
  | cons s rest ih =>
      rw [List.foldl_cons, ih, sumTab_incrTab, List.length_cons]
      omega

/-! ### Single-pass fold characterization -/

theorem foldl_stepField (l : List ℚ) (s : FieldStat) :
    l.foldl stepField s =
      { count := s.count + l.length
        sum := s.sum + l.sum
        sqsum := s.sqsum + (l.map fun x => x ^ 2).sum
        minv := min s.minv l.minimum
        maxv := max s.maxv l.maximum } := by
  induction l generalizing s with
  | nil =>
      simp only [List.foldl_nil, List.length_nil, List.sum_nil, List.map_nil,
        List.minimum_nil, List.maximum_nil, Nat.add_zero, add_zero]
      rw [min_eq_left le_top, max_eq_left bot_le]
  | cons a l ih =>
      rw [List.foldl_cons, ih]
      simp only [stepField, List.length_cons, List.sum_cons, List.map_cons,
        List.minimum_cons, List.maximum_cons, FieldStat.mk.injEq]
      refine ⟨by omega, by ring, by ring, min_assoc _ _ _, max_assoc _ _ _⟩

theorem foldAgg_field (p : Agg → FieldStat) (g : PRow → ℚ)
    (hp : ∀ a r, p (stepRow a r) = stepField (p a) (g r)) (rows : List PRow) (a : Agg) :
    p (rows.foldl stepRow a) = (rows.map g).foldl stepField (p a) := by
  induction rows generalizing a with
  | nil => rfl
  | cons r rest ih =>
      rw [List.foldl_cons, List.map_cons, List.foldl_cons, ih, hp]

theorem foldAgg_tab (p : Agg → List (String × ℕ)) (g : PRow → String)
    (hp : ∀ a r, p (stepRow a r) = incrTab (p a) (g r)) (rows : List PRow) (a : Agg) :
    p (rows.foldl stepRow a) = (rows.map g).foldl incrTab (p a) := by
  induction rows generalizing a with
  | nil => rfl
  | cons r rest ih =>
      rw [List.foldl_cons, List.map_cons, List.foldl_cons, ih, hp]

theorem foldAgg_stats (rows : List PRow) (g : PRow → ℚ) (p : Agg → FieldStat)
    (hp : ∀ a r, p (stepRow a r) = stepField (p a) (g r))
    (hp0 : p initAgg = initField) :
    p (foldAgg rows) =
      { count := (rows.map g).length
        sum := (rows.map g).sum
        sqsum := ((rows.map g).map fun x => x ^ 2).sum
        minv := (rows.map g).minimum
        maxv := (rows.map g).maximum } := by
  rw [foldAgg, foldAgg_field p g hp rows initAgg, hp0, foldl_stepField]
  simp only [initField, Nat.zero_add, zero_add]
  rw [min_eq_right le_top, max_eq_right bot_le]

/-! ### Two-pass algebra -/

theorem sum_sq_dev (l : List ℚ) (m : ℚ) :
    (l.map fun x => (x - m) ^ 2).sum =
      (l.map fun x => x ^ 2).sum - 2 * m * l.sum + (l.length : ℚ) * m ^ 2 := by
  induction l with
  | nil => simp
  | cons a t ih =>
      simp only [List.map_cons, List.sum_cons, List.length_cons, ih]
      push_cast
      ring

theorem twoPassVariance_eq (l : List ℚ) :
    twoPassVariance l = (l.map fun x => x ^ 2).sum / (l.length : ℚ) - twoPassMean l ^ 2 := by
  rcases eq_or_ne l.length 0 with h | h
  · rw [List.length_eq_zero] at h
    subst h
    simp [twoPassVariance, twoPassMean]
  · have hn : (l.length : ℚ) ≠ 0 := by exact_mod_cast h
    rw [twoPassVariance, sum_sq_dev, twoPassMean]
    field_simp
    ring

theorem sum_sq_nonneg (l : List ℚ) : 0 ≤ (l.map fun x => x ^ 2).sum := by
  induction l with
  | nil => simp
  | cons a t ih =>
      simp only [List.map_cons, List.sum_cons]
      nlinarith [sq_nonneg a]

theorem sq_sum_le_length_mul_sum_sq (l : List ℚ) :
    l.sum ^ 2 ≤ (l.length : ℚ) * (l.map fun x => x ^ 2).sum := by
  induction l with
  | nil => simp
  | cons a t ih =>
      simp only [List.sum_cons, List.length_cons, List.map_cons, List.sum_cons]
      push_cast
      rcases eq_or_ne t.length 0 with h0 | h0
      · rw [List.length_eq_zero] at h0
        subst h0
        simp
      · have hn : (1 : ℚ) ≤ (t.length : ℚ) := by
          have h1 : 1 ≤ t.length := Nat.one_le_iff_ne_zero.mpr h0
          exact_mod_cast h1
        nlinarith [sq_nonneg ((t.length : ℚ) * a - t.sum), hn,
          mul_nonneg (by positivity : (0 : ℚ) ≤ (t.length : ℚ) + 1) (sub_nonneg.mpr ih)]

theorem sum_sq_dev_nonneg (l : List ℚ) (m : ℚ) :
    0 ≤ (l.map fun x => (x - m) ^ 2).sum := by
  have h := sum_sq_nonneg (l.map fun x => x - m)
  rw [List.map_map] at h
  simpa [Function.comp] using h

theorem twoPassVariance_nonneg (l : List ℚ) : 0 ≤ twoPassVariance l := by
  rcases eq_or_ne l.length 0 with h | h
  · rw [List.length_eq_zero] at h
    subst h
    simp [twoPassVariance]
  · have hn : (0 : ℚ) < (l.length : ℚ) := by
      have hpos : 0 < l.length := Nat.pos_of_ne_zero h
      exact_mod_cast hpos
    exact div_nonneg (sum_sq_dev_nonneg l (twoPassMean l)) (le_of_lt hn)

/-! ### Raw-row stream vs parsed stream -/

theorem foldRowsE_ok_of_parsed (rows : List Row) (prows : List PRow)
    (h : rows.mapM parseRow = some prows) (a : Agg) :
    foldRowsE rows a = .ok (prows.foldl stepRow a) := by
  induction rows generalizing prows a with
  | nil =>
      simp only [List.mapM_nil, pure, Option.some.injEq] at h
      subst h
      rfl
  | cons r rest ih =>
      rw [List.mapM_cons] at h
      cases hp : parseRow r with
      | none => rw [hp] at h; simp at h
      | some p =>
          cases hrest : rest.mapM parseRow with
          | none => rw [hp, hrest] at h; simp at h
          | some ps =>
              rw [hp, hrest] at h
              simp only [Option.pure_def, Option.bind_eq_bind, Option.some_bind,
                Option.some.injEq] at h
              subst h
              show foldRowsE (r :: rest) a = .ok ((p :: ps).foldl stepRow a)
              simp only [foldRowsE, stepRowE, hp, List.foldl_cons]
              exact ih ps hrest _

/-! ### Further dictionary and merge lemmas -/

theorem mem_keys_of_dlookup (d : Dict α) (s : String) (v : α)
    (h : dlookup d s = some v) : s ∈ keys d := by
  induction d with
  | nil => cases h
  | cons kv rest ih =>
      obtain ⟨k0, v0⟩ := kv
      rw [mem_keys_cons]
      by_cases h0 : k0 = s
      · exact Or.inl h0.symm
      · simp only [dlookup, if_neg h0] at h
        exact Or.inr (ih h)

theorem dlookup_eq_none_of_not_mem (d : Dict α) (s : String) (h : s ∉ keys d) :
    dlookup d s = none := by
  induction d with
  | nil => rfl
  | cons kv rest ih =>
      obtain ⟨k0, v0⟩ := kv
      rw [mem_keys_cons] at h
      push_neg at h
      simp only [dlookup, if_neg (fun hc : k0 = s => h.1 hc.symm)]
      exact ih h.2

theorem dlookup_mergeData (jd cd : Dict Rec) (s : String)
    (h : s ∈ keys jd ∨ s ∈ keys cd) :
    dlookup (mergeData jd cd) s = some (mergedRecOf jd cd s) := by
  rw [mergeData]
  exact dlookup_foldl_dinsert_mem (mergedRecOf jd cd) _ [] s ((mem_unionKeys _ _ s).mpr h)

theorem mem_keys_mergeData (jd cd : Dict Rec) (a : String) :
    a ∈ keys (mergeData jd cd) ↔ a ∈ keys jd ∨ a ∈ keys cd := by
  rw [mergeData, mem_keys_foldl_dinsert]
  simp only [keys, List.map_nil, List.not_mem_nil, false_or]
  exact mem_unionKeys _ _ a

/-! ### CSV-loop lemmas -/

theorem buildCsvAux_skip_empty (fs1 fs2 : List (String × List Row)) (n : String)
    (acc : Dict Rec) :
    buildCsvAux acc (fs1 ++ (n, []) :: fs2) = buildCsvAux acc (fs1 ++ fs2) := by
  induction fs1 generalizing acc with
  | nil => simp [buildCsvAux, foldRowsE, initAgg, initField]
  | cons f fs1 ih =>
      obtain ⟨m, rws⟩ := f
      simp only [List.cons_append, buildCsvAux]
      cases foldRowsE rws initAgg with
      | error e => rfl
      | ok agg =>
          by_cases hc : agg.fivelen.count = 0
          · simp [hc, ih]
          · simp [hc, ih]

theorem dlookup_buildCsvAux_not_mem (files : List (String × List Row)) (acc : Dict Rec)
    (n : String) (cd : Dict Rec) (hok : buildCsvAux acc files = .ok cd)
    (hnm : n ∉ files.map Prod.fst) :
    dlookup cd n = dlookup acc n := by
  induction files generalizing acc with
  | nil =>
      simp only [buildCsvAux, Except.ok.injEq] at hok
      rw [hok]
  | cons f rest ih =>
      obtain ⟨m, rws⟩ := f
      simp only [List.map_cons, List.mem_cons, not_or] at hnm
      simp only [buildCsvAux] at hok
      cases hfold : foldRowsE rws initAgg with
      | error e => rw [hfold] at hok; cases hok
      | ok agg =>
          rw [hfold] at hok
          dsimp only at hok
          by_cases hc : agg.fivelen.count = 0
          · rw [if_pos hc] at hok
            exact ih _ hok hnm.2
          · rw [if_neg hc] at hok
            rw [ih _ hok hnm.2, dlookup_dinsert_ne _ _ _ _ hnm.1]

theorem buildCsvAux_error (files : List (String × List Row)) (acc : Dict Rec)
    (h : ∃ f ∈ files, foldRowsE f.2 initAgg = .error Err.malformedRecord) :
    buildCsvAux acc files = .error Err.malformedRecord := by
  induction files generalizing acc with
  | nil => obtain ⟨f, hf, -⟩ := h; cases hf
  | cons f rest ih =>
      obtain ⟨m, rws⟩ := f
      simp only [buildCsvAux]
      cases hfold : foldRowsE rws initAgg with
      | error e => cases e; rfl
      | ok agg =>
          dsimp only
          have hrest : ∃ g ∈ rest, foldRowsE g.2 initAgg = .error Err.malformedRecord := by
            obtain ⟨g, hg, hge⟩ := h
            rcases List.mem_cons.mp hg with hg1 | hg2
            · exfalso
              rw [hg1] at hge
              dsimp only at hge
              rw [hfold] at hge
              cases hge
            · exact ⟨g, hg2, hge⟩
          by_cases hc : agg.fivelen.count = 0
          · rw [if_pos hc]; exact ih _ hrest
          · rw [if_neg hc]; exact ih _ hrest

theorem dlookup_buildCsvAux_last (m : String) (rows : List Row) (agg : Agg)
    (hfold : foldRowsE rows initAgg = .ok agg) (hne : agg.fivelen.count ≠ 0)
    (cfs : List (String × List Row)) (acc : Dict Rec) (cd : Dict Rec)
    (hcd : buildCsvAux acc (cfs ++ [(m, rows)]) = .ok cd) :
    dlookup cd m = some (finalizeDict agg) := by
  induction cfs generalizing acc with
  | nil =>
      simp only [List.nil_append, buildCsvAux, hfold, if_neg hne] at hcd
      simp only [buildCsvAux, Except.ok.injEq] at hcd
      rw [← hcd, dlookup_dinsert_self]
  | cons f rest ih =>
      obtain ⟨m0, rws0⟩ := f
      simp only [List.cons_append, buildCsvAux] at hcd
      cases hf0 : foldRowsE rws0 initAgg with
      | error e => rw [hf0] at hcd; cases hcd
      | ok agg0 =>
          rw [hf0] at hcd
          dsimp only at hcd
          by_cases hc : agg0.fivelen.count = 0
          · rw [if_pos hc] at hcd
            exact ih _ hcd
          · rw [if_neg hc] at hcd
            exact ih _ hcd

/-! ### Heap lemmas for the reference-semantics merge -/

theorem hget_set_ne (h : Heap) (r r' : ℕ) (v : Rec) (hne : r' ≠ r) :
    hget (h.set r' v) r = hget h r := by
  unfold hget
  rw [List.getElem?_set_ne hne]

theorem hget_set_self (h : Heap) (r : ℕ) (v : Rec) (hr : r < h.length) :
    hget (h.set r v) r = v := by
  unfold hget
  rw [List.getElem?_set_self hr]
  rfl

theorem hget_append_lt (h h2 : Heap) (r : ℕ) (hr : r < h.length) :
    hget (h ++ h2) r = hget h r := by
  unfold hget
  rw [List.getElem?_append_left hr]

theorem mergeH_foldl_preserves (jd : Dict ℕ) (cd : Dict Rec) (r : ℕ)
    (l : List String) (st : Heap × Dict ℕ) (hr : r < st.1.length)
    (havoid : ∀ t ∈ l, ∀ r', dlookup jd t = some r' → r' ≠ r) :
    hget ((l.foldl (mergeHStep jd cd) st).1) r = hget st.1 r ∧
    r < ((l.foldl (mergeHStep jd cd) st).1).length := by
  induction l generalizing st with
  | nil => exact ⟨rfl, hr⟩
  | cons t rest ih =>
      rw [List.foldl_cons]
      have hstep : hget (mergeHStep jd cd st t).1 r = hget st.1 r ∧
          r < ((mergeHStep jd cd st t).1).length := by
        cases hjd : dlookup jd t with
        | some r' =>
            have hne : r' ≠ r := havoid t (List.mem_cons_self t rest) r' hjd
            simp only [mergeHStep, hjd]
            exact ⟨hget_set_ne _ _ _ _ hne, by simpa using hr⟩
        | none =>
            simp only [mergeHStep, hjd]
            refine ⟨hget_append_lt _ _ _ hr, ?_⟩
            rw [List.length_append]
            omega
      obtain ⟨h1, h2⟩ := hstep
      have hrec := ih (mergeHStep jd cd st t) h2
        (fun t' ht' => havoid t' (List.mem_cons_of_mem _ ht'))
      exact ⟨hrec.1.trans h1, hrec.2⟩

/-! ### Per-field two-pass bridge -/

theorem field_two_pass (rows : List PRow) (g : PRow → ℚ) (p : Agg → FieldStat)
    (hp : ∀ a r, p (stepRow a r) = stepField (p a) (g r))
    (hp0 : p initAgg = initField) :
    varOf (p (foldAgg rows)) = twoPassVariance (rows.map g) ∧
    fieldMatchesTwoPass (p (foldAgg rows)) (rows.map g) := by
  have hstats := foldAgg_stats rows g p hp hp0
  have hvar : varOf (p (foldAgg rows)) = twoPassVariance (rows.map g) := by
    rw [hstats, twoPassVariance_eq]
    rfl
  refine ⟨hvar, ?_, ?_, ?_, ?_⟩
  · rw [hstats]; rfl
  · show stdevOf (p (foldAgg rows)) = twoPassStd (rows.map g)
    unfold stdevOf stdClamp twoPassStd
    rw [hvar]
    rcases lt_or_eq_of_le (twoPassVariance_nonneg (rows.map g)) with hpos | hzero
    · rw [if_pos hpos]
    · have hnot : ¬ 0 < twoPassVariance (rows.map g) := by
        rw [← hzero]; exact lt_irrefl 0
      rw [if_neg hnot, ← hzero]
      simp
  · rw [hstats]; rfl
  · rw [hstats]; rfl

/-! ### Claim C1 -/

/-- C1: for every stream of raw CSV rows all of whose four numeric fields
parse as reals, the single-pass fold of `parse_refine_log` succeeds, and its
finalized mean, standard deviation, min and max for each of the four columns
equal those of the two-pass buffer-then-compute reference implementation,
exactly, over exact arithmetic. -/
theorem c1_single_pass_matches_two_pass (rows : List Row) (prows : List PRow)
    (h : rows.mapM parseRow = some prows) :
    foldRowsE rows initAgg = .ok (foldAgg prows) ∧
    fieldMatchesTwoPass (foldAgg prows).fivelen (prows.map PRow.fivelen) ∧
    fieldMatchesTwoPass (foldAgg prows).threelen (prows.map PRow.threelen) ∧
    fieldMatchesTwoPass (foldAgg prows).polyAlen (prows.map PRow.polyAlen) ∧
    fieldMatchesTwoPass (foldAgg prows).insertlen (prows.map PRow.insertlen) :=
  ⟨foldRowsE_ok_of_parsed rows prows h initAgg,
   (field_two_pass prows PRow.fivelen Agg.fivelen (fun _ _ => rfl) rfl).2,
   (field_two_pass prows PRow.threelen Agg.threelen (fun _ _ => rfl) rfl).2,
   (field_two_pass prows PRow.polyAlen Agg.polyAlen (fun _ _ => rfl) rfl).2,
   (field_two_pass prows PRow.insertlen Agg.insertlen (fun _ _ => rfl) rfl).2⟩

/-- Witness for C1: a concrete two-row stream. -/
theorem c1_witness :
    [goodRow, rowB].mapM parseRow = some [pGoodRow, pRowB] ∧
    (foldRowsE [goodRow, rowB] initAgg = .ok (foldAgg [pGoodRow, pRowB]) ∧
     fieldMatchesTwoPass (foldAgg [pGoodRow, pRowB]).fivelen
       ([pGoodRow, pRowB].map PRow.fivelen) ∧
     fieldMatchesTwoPass (foldAgg [pGoodRow, pRowB]).threelen
       ([pGoodRow, pRowB].map PRow.threelen) ∧
     fieldMatchesTwoPass (foldAgg [pGoodRow, pRowB]).polyAlen
       ([pGoodRow, pRowB].map PRow.polyAlen) ∧
     fieldMatchesTwoPass (foldAgg [pGoodRow, pRowB]).insertlen
       ([pGoodRow, pRowB].map PRow.insertlen)) :=
  ⟨by decide, c1_single_pass_matches_two_pass [goodRow, rowB] [pGoodRow, pRowB] (by decide)⟩

/-! ### Claim C4 -/

/-- C4: a sample whose CSV stream yields no rows is absent entirely:
processing the empty file leaves `csv_data` exactly as it would be without
that file, the sample has no aggregate entry (when no other file names it),
and its merged record is exactly the summary record — no zero-, NaN- or
infinity-filled per-field placeholders are created. -/
theorem c4_empty_stream_absent (fs1 fs2 : List (String × List Row)) (n : String) :
    buildCsvData (fs1 ++ (n, []) :: fs2) = buildCsvData (fs1 ++ fs2) ∧
    (∀ cd, buildCsvData (fs1 ++ (n, []) :: fs2) = .ok cd →
      n ∉ (fs1 ++ fs2).map Prod.fst →
      dlookup cd n = none ∧
      ∀ jd : Dict Rec, mergedRecOf jd cd n = lookupD jd n []) := by
  refine ⟨buildCsvAux_skip_empty fs1 fs2 n [], ?_⟩
  intro cd hok hnm
  have hskip : buildCsvAux [] (fs1 ++ fs2) = .ok cd := by
    rw [← buildCsvAux_skip_empty fs1 fs2 n []]
    exact hok
  have hnone : dlookup cd n = none := by
    rw [dlookup_buildCsvAux_not_mem (fs1 ++ fs2) [] n cd hskip hnm]
    rfl
  refine ⟨hnone, fun jd => ?_⟩
  simp only [mergedRecOf, lookupD, hnone, Option.getD_none, updRec, List.foldl_nil]

/-- Witness for C4 at a concrete batch with one empty CSV file. -/
theorem c4_witness :
    buildCsvData [("s", [])] = buildCsvData [] ∧
    buildCsvData [("s", ([] : List Row))] = .ok [] ∧
    ("s" ∉ ([] : List (String × List Row)).map Prod.fst) ∧
    dlookup ([] : Dict Rec) "s" = none ∧
    mergedRecOf [("s", [("k", Val.num 7)])] [] "s" =
      lookupD [("s", [("k", Val.num 7)])] "s" [] :=
  ⟨(c4_empty_stream_absent [] [] "s").1,
   rfl,
   by decide,
   ((c4_empty_stream_absent [] [] "s").2 [] rfl (by decide)).1,
   ((c4_empty_stream_absent [] [] "s").2 [] rfl (by decide)).2 [("s", [("k", Val.num 7)])]⟩

/-! ### Claim C5 -/

/-- C5: for every non-empty stream of parseable records and every numeric
column, the variance expression is non-negative over exact arithmetic, and
the reported standard deviation is non-negative (hence never NaN), equal to
`√variance` when the variance is positive and exactly `0` otherwise. -/
theorem c5_std_clamp (rows : List PRow) (_h : rows ≠ []) :
    (0 ≤ varOf (foldAgg rows).fivelen ∧ stdClampSpec (foldAgg rows).fivelen) ∧
    (0 ≤ varOf (foldAgg rows).threelen ∧ stdClampSpec (foldAgg rows).threelen) ∧
    (0 ≤ varOf (foldAgg rows).polyAlen ∧ stdClampSpec (foldAgg rows).polyAlen) ∧
    (0 ≤ varOf (foldAgg rows).insertlen ∧ stdClampSpec (foldAgg rows).insertlen) := by
  have base : ∀ st : FieldStat, stdClampSpec st := by
    intro st
    unfold stdClampSpec stdevOf stdClamp
    refine ⟨?_, fun hv => by rw [if_pos hv], fun hv => by rw [if_neg hv]⟩
    by_cases hv : 0 < varOf st
    · rw [if_pos hv]; exact Real.sqrt_nonneg _
    · rw [if_neg hv]
  have hvar : ∀ (g : PRow → ℚ) (p : Agg → FieldStat),
      (∀ a r, p (stepRow a r) = stepField (p a) (g r)) → p initAgg = initField →
      0 ≤ varOf (p (foldAgg rows)) := by
    intro g p hp hp0
    rw [(field_two_pass rows g p hp hp0).1]
    exact twoPassVariance_nonneg _
  exact ⟨⟨hvar PRow.fivelen Agg.fivelen (fun _ _ => rfl) rfl, base _⟩,
    ⟨hvar PRow.threelen Agg.threelen (fun _ _ => rfl) rfl, base _⟩,
    ⟨hvar PRow.polyAlen Agg.polyAlen (fun _ _ => rfl) rfl, base _⟩,
    ⟨hvar PRow.insertlen Agg.insertlen (fun _ _ => rfl) rfl, base _⟩⟩

/-- Witness for C5 at a concrete one-row stream. -/
theorem c5_witness :
    ([pGoodRow] : List PRow) ≠ [] ∧
    ((0 ≤ varOf (foldAgg [pGoodRow]).fivelen ∧ stdClampSpec (foldAgg [pGoodRow]).fivelen) ∧
     (0 ≤ varOf (foldAgg [pGoodRow]).threelen ∧ stdClampSpec (foldAgg [pGoodRow]).threelen) ∧
     (0 ≤ varOf (foldAgg [pGoodRow]).polyAlen ∧ stdClampSpec (foldAgg [pGoodRow]).polyAlen) ∧
     (0 ≤ varOf (foldAgg [pGoodRow]).insertlen ∧ stdClampSpec (foldAgg [pGoodRow]).insertlen)) :=
  ⟨by decide, c5_std_clamp [pGoodRow] (by decide)⟩

/-! ### Claim C7 -/

/-- C7: for every finite stream of parseable records, and at every
intermediate step of the fold, the total count in each categorical frequency
table (`strand_counts`, `primer_counts`) equals the number of records
consumed so far, and on the completed stream it equals the stream length and
each numeric column's count. -/
theorem c7_categorical_completeness (rows : List PRow) :
    sumTab (foldAgg rows).strand_counts = rows.length ∧
    sumTab (foldAgg rows).primer_counts = rows.length ∧
    (foldAgg rows).fivelen.count = rows.length ∧
    (foldAgg rows).threelen.count = rows.length ∧
    (foldAgg rows).polyAlen.count = rows.length ∧
    (foldAgg rows).insertlen.count = rows.length ∧
    (∀ n, sumTab (foldAgg (rows.take n)).strand_counts = (rows.take n).length ∧
          sumTab (foldAgg (rows.take n)).primer_counts = (rows.take n).length) := by
  have htab : ∀ (l : List PRow) (g : PRow → String) (p : Agg → List (String × ℕ)),
      (∀ a r, p (stepRow a r) = incrTab (p a) (g r)) → p initAgg = [] →
      sumTab (p (foldAgg l)) = l.length := by
    intro l g p hp hp0
    rw [foldAgg, foldAgg_tab p g hp l initAgg, hp0, sumTab_foldl_incrTab]
    simp [sumTab]
  have hcount : ∀ (g : PRow → ℚ) (p : Agg → FieldStat),
      (∀ a r, p (stepRow a r) = stepField (p a) (g r)) → p initAgg = initField →
      (p (foldAgg rows)).count = rows.length := by
    intro g p hp hp0
    rw [foldAgg_stats rows g p hp hp0]
    simp
  refine ⟨htab rows PRow.strand Agg.strand_counts (fun _ _ => rfl) rfl,
    htab rows PRow.primer Agg.primer_counts (fun _ _ => rfl) rfl,
    hcount PRow.fivelen Agg.fivelen (fun _ _ => rfl) rfl,
    hcount PRow.threelen Agg.threelen (fun _ _ => rfl) rfl,
    hcount PRow.polyAlen Agg.polyAlen (fun _ _ => rfl) rfl,
    hcount PRow.insertlen Agg.insertlen (fun _ _ => rfl) rfl,
    fun n => ⟨htab _ PRow.strand Agg.strand_counts (fun _ _ => rfl) rfl,
              htab _ PRow.primer Agg.primer_counts (fun _ _ => rfl) rfl⟩⟩

/-! ### Claim C2 (corrected) -/

/-- C2 counterexample: with the filename-as-sample-name flag set, a summary
key set `S = ⟨a⟩` and an aggregate key set `A = ∅` differ, yet the run
emits no `KeySetMismatch` warning — the `elif` at line 74 is skipped. -/
theorem c2_counterexample :
    (¬ ∀ k, k ∈ keys ([("a", [])] : Dict Rec) ↔ k ∈ keys ([] : Dict Rec)) ∧
    parse_refine_log true [("a", [])] [] =
      .ok ([("a", [])], [Warning.incompatibleSampleNaming]) ∧
    Warning.keySetMismatch ∉ [Warning.incompatibleSampleNaming] := by
  refine ⟨?_, rfl, by decide⟩
  intro hall
  have h := (hall "a").1 (by rw [mem_keys_cons]; exact Or.inl rfl)
  simp [keys] at h

/-- C2 (amended): the merged output's key set is always `S ∪ A`, and a
`KeySetMismatch` warning is emitted iff the filename-as-sample-name flag is
unset and `S ≠ A`; when the flag is set the key-set check is skipped. -/
theorem c2_merge_keys_and_warning (flag : Bool) (jd cd : Dict Rec) :
    (∀ s, s ∈ keys (mergeData jd cd) ↔ s ∈ keys jd ∨ s ∈ keys cd) ∧
    (Warning.keySetMismatch ∈ warnsOf flag (keys jd) (keys cd) ↔
      flag = false ∧ ¬ ∀ k, k ∈ keys jd ↔ k ∈ keys cd) := by
  refine ⟨fun s => mem_keys_mergeData jd cd s, ?_⟩
  cases flag with
  | true => simp [warnsOf]
  | false =>
      simp only [warnsOf, Bool.false_eq_true, if_false]
      by_cases h : keySetEq (keys jd) (keys cd) = true
      · rw [if_pos h]
        simp [(keySetEq_iff _ _).mp h]
      · rw [if_neg h]
        have hne : ¬ ∀ k, k ∈ keys jd ↔ k ∈ keys cd :=
          fun hall => h ((keySetEq_iff _ _).mpr hall)
        simp [hne]

/-! ### Claim C6 -/

/-- C6: a sample present only in the summary map keeps exactly its summary
fields; one present only in the aggregate map gets exactly the aggregate
fields; one present in both gets the union, aggregate fields overriding
summary fields on name collisions. -/
theorem c6_merge_field_provenance (jd cd : Dict Rec) (s : String) :
    (∀ sv, dlookup jd s = some sv → dlookup cd s = none →
        dlookup (mergeData jd cd) s = some sv) ∧
    (∀ av, dlookup jd s = none → dlookup cd s = some av → (keys av).Nodup →
        ∃ rec, dlookup (mergeData jd cd) s = some rec ∧
          (∀ fld, fld ∈ keys rec ↔ fld ∈ keys av) ∧
          (∀ fld, dlookup rec fld = dlookup av fld)) ∧
    (∀ sv av, dlookup jd s = some sv → dlookup cd s = some av → (keys av).Nodup →
        ∃ rec, dlookup (mergeData jd cd) s = some rec ∧
          (∀ fld, fld ∈ keys rec ↔ fld ∈ keys sv ∨ fld ∈ keys av) ∧
          (∀ fld, fld ∈ keys av → dlookup rec fld = dlookup av fld) ∧
          (∀ fld, fld ∉ keys av → dlookup rec fld = dlookup sv fld)) := by
  refine ⟨?_, ?_, ?_⟩
  · intro sv h1 h2
    rw [dlookup_mergeData jd cd s (Or.inl (mem_keys_of_dlookup jd s sv h1))]
    simp [mergedRecOf, lookupD, h1, h2, updRec]
  · intro av h1 h2 hnd
    refine ⟨updRec [] av, ?_, ?_, ?_⟩
    · rw [dlookup_mergeData jd cd s (Or.inr (mem_keys_of_dlookup cd s av h2))]
      simp [mergedRecOf, lookupD, h1, h2]
    · intro fld
      rw [mem_keys_updRec]
      simp [keys]
    · intro fld
      by_cases hm : fld ∈ keys av
      · exact dlookup_updRec_mem [] av fld hnd hm
      · rw [dlookup_updRec_not_mem [] av fld hm, dlookup_eq_none_of_not_mem av fld hm]
        rfl
  · intro sv av h1 h2 hnd
    refine ⟨updRec sv av, ?_, ?_, ?_, ?_⟩
    · rw [dlookup_mergeData jd cd s (Or.inl (mem_keys_of_dlookup jd s sv h1))]
      simp [mergedRecOf, lookupD, h1, h2]
    · intro fld
      rw [mem_keys_updRec]
    · intro fld hm
      exact dlookup_updRec_mem sv av fld hnd hm
    · intro fld hm
      exact dlookup_updRec_not_mem sv av fld hm

/-- Witness for C6: all three provenance cases at concrete inputs. -/
theorem c6_witness :
    (dlookup ([("x", [("a", Val.num 1)])] : Dict Rec) "x" = some [("a", Val.num 1)] ∧
     dlookup ([("y", [("b", Val.num 2)])] : Dict Rec) "x" = none ∧
     dlookup (mergeData [("x", [("a", Val.num 1)])] [("y", [("b", Val.num 2)])]) "x" =
       some [("a", Val.num 1)]) ∧
    (dlookup ([("x", [("a", Val.num 1)])] : Dict Rec) "y" = none ∧
     dlookup ([("y", [("b", Val.num 2)])] : Dict Rec) "y" = some [("b", Val.num 2)] ∧
     (keys ([("b", Val.num 2)] : Rec)).Nodup ∧
     ∃ rec, dlookup (mergeData [("x", [("a", Val.num 1)])] [("y", [("b", Val.num 2)])]) "y" =
         some rec ∧
       (∀ fld, fld ∈ keys rec ↔ fld ∈ keys ([("b", Val.num 2)] : Rec)) ∧
       (∀ fld, dlookup rec fld = dlookup ([("b", Val.num 2)] : Rec) fld)) ∧
    (dlookup ([("z", [("a", Val.num 1), ("b", Val.num 2)])] : Dict Rec) "z" =
       some [("a", Val.num 1), ("b", Val.num 2)] ∧
     dlookup ([("z", [("b", Val.num 3), ("c", Val.num 4)])] : Dict Rec) "z" =
       some [("b", Val.num 3), ("c", Val.num 4)] ∧
     (keys ([("b", Val.num 3), ("c", Val.num 4)] : Rec)).Nodup ∧
     ∃ rec, dlookup (mergeData [("z", [("a", Val.num 1), ("b", Val.num 2)])]
         [("z", [("b", Val.num 3), ("c", Val.num 4)])]) "z" = some rec ∧
       (∀ fld, fld ∈ keys rec ↔
         fld ∈ keys ([("a", Val.num 1), ("b", Val.num 2)] : Rec) ∨
         fld ∈ keys ([("b", Val.num 3), ("c", Val.num 4)] : Rec)) ∧
       (∀ fld, fld ∈ keys ([("b", Val.num 3), ("c", Val.num 4)] : Rec) →
         dlookup rec fld = dlookup ([("b", Val.num 3), ("c", Val.num 4)] : Rec) fld) ∧
       (∀ fld, fld ∉ keys ([("b", Val.num 3), ("c", Val.num 4)] : Rec) →
         dlookup rec fld = dlookup ([("a", Val.num 1), ("b", Val.num 2)] : Rec) fld)) :=
  ⟨⟨rfl, rfl,
    (c6_merge_field_provenance [("x", [("a", Val.num 1)])] [("y", [("b", Val.num 2)])]
      "x").1 [("a", Val.num 1)] rfl rfl⟩,
   ⟨rfl, rfl, by decide,
    (c6_merge_field_provenance [("x", [("a", Val.num 1)])] [("y", [("b", Val.num 2)])]
      "y").2.1 [("b", Val.num 2)] rfl rfl (by decide)⟩,
   ⟨rfl, rfl, by decide,
    (c6_merge_field_provenance [("z", [("a", Val.num 1), ("b", Val.num 2)])]
      [("z", [("b", Val.num 3), ("c", Val.num 4)])] "z").2.2
      [("a", Val.num 1), ("b", Val.num 2)] [("b", Val.num 3), ("c", Val.num 4)]
      rfl rfl (by decide)⟩⟩

/-! ### Claim C8 (corrected) -/

/-- C8 counterexample: with the filename-as-sample-name flag set, a batch
containing one unparseable numeric cell crashes before the warning code at
line 68 runs: the call returns the `ValueError`, so no
`IncompatibleSampleNaming` warning is emitted and no merged map is
produced — refuting the claim's "for every batch" conclusions. -/
theorem c8_counterexample :
    parse_refine_log true [("a", [("k", Val.num 1)])] [("s1", [badRow])] =
      .error Err.malformedRecord ∧
    ∀ out, parse_refine_log true [("a", [("k", Val.num 1)])] [("s1", [badRow])] ≠ .ok out := by
  have h1 : parse_refine_log true [("a", [("k", Val.num 1)])] [("s1", [badRow])] =
      .error Err.malformedRecord := rfl
  exact ⟨h1, fun out hout => Except.noConfusion (h1.symm.trans hout)⟩

/-- C8 (amended): for every batch whose CSV pass raises no `ValueError`,
when the filename-as-sample-name flag is set the run does not crash, logs
`IncompatibleSampleNaming` exactly once for the whole batch (not per
sample), and still returns the best-effort merge over the union of the key
sets; a batch with an unparseable numeric field instead aborts before any
warning is emitted. -/
theorem c8_flag_warns_once_batch (jf : List (String × Rec))
    (cf : List (String × List Row)) (cd : Dict Rec)
    (h : buildCsvData cf = .ok cd) :
    parse_refine_log true jf cf =
      .ok (mergeData (buildJsonData jf) cd, [Warning.incompatibleSampleNaming]) ∧
    (∀ s, s ∈ keys (mergeData (buildJsonData jf) cd) ↔
        s ∈ keys (buildJsonData jf) ∨ s ∈ keys cd) := by
  constructor
  · simp [parse_refine_log, h, warnsOf]
  · exact fun s => mem_keys_mergeData _ _ s

/-- Witness for C8 at a concrete batch. -/
theorem c8_witness :
    buildCsvData ([] : List (String × List Row)) = .ok [] ∧
    (parse_refine_log true [("a", [("k", Val.num 1)])] [] =
      .ok (mergeData (buildJsonData [("a", [("k", Val.num 1)])]) [],
        [Warning.incompatibleSampleNaming]) ∧
     (∀ s, s ∈ keys (mergeData (buildJsonData [("a", [("k", Val.num 1)])]) []) ↔
        s ∈ keys (buildJsonData [("a", [("k", Val.num 1)])]) ∨ s ∈ keys ([] : Dict Rec))) :=
  ⟨rfl, c8_flag_warns_once_batch [("a", [("k", Val.num 1)])] [] [] rfl⟩

/-! ### Claim C3 (corrected) -/

/-- C3 counterexample: in a batch of two samples where sample `s1` has one
unparseable numeric field, the whole `parse_refine_log` call fails: sample
`s2` does not complete and no merged output is produced. -/
theorem c3_counterexample :
    parse_refine_log false [] [("s1", [badRow]), ("s2", [goodRow])] =
      .error Err.malformedRecord ∧
    ∀ out, parse_refine_log false [] [("s1", [badRow]), ("s2", [goodRow])] ≠ .ok out := by
  have h1 : parse_refine_log false [] [("s1", [badRow]), ("s2", [goodRow])] =
      .error Err.malformedRecord := rfl
  exact ⟨h1, fun out hout => Except.noConfusion (h1.symm.trans hout)⟩

/-- C3 (amended): when any sample's per-read stream contains a record with an
unparseable numeric field, the uncaught `ValueError` aborts the whole
`parse_refine_log` call: no sample completes and no merged output is
returned. -/
theorem c3_malformed_aborts_batch (flag : Bool) (jf : List (String × Rec))
    (cf : List (String × List Row)) (n : String) (rows : List Row)
    (hmem : (n, rows) ∈ cf)
    (hbad : foldRowsE rows initAgg = .error Err.malformedRecord) :
    parse_refine_log flag jf cf = .error Err.malformedRecord := by
  have hcsv : buildCsvData cf = .error Err.malformedRecord :=
    buildCsvAux_error cf [] ⟨(n, rows), hmem, hbad⟩
  simp only [parse_refine_log, hcsv]

/-- Witness for C3's amended theorem. -/
theorem c3_witness :
    (("s1", [badRow]) ∈ [("s1", [badRow]), ("s2", [goodRow])] ∧
     foldRowsE [badRow] initAgg = .error Err.malformedRecord) ∧
    parse_refine_log true [] [("s1", [badRow]), ("s2", [goodRow])] =
      .error Err.malformedRecord :=
  ⟨⟨by decide, rfl⟩,
   c3_malformed_aborts_batch true [] [("s1", [badRow]), ("s2", [goodRow])] "s1" [badRow]
     (by decide) rfl⟩

/-! ### Claim C10 -/

/-- C10: when two discovered files of the same source type map to the same
sample name, the later-processed file's record silently replaces the earlier
one: the summary map keeps the last JSON payload, the aggregate map keeps the
finalized statistics of the last CSV file, no merging of the two files'
contents occurs, and the only warnings a run can ever emit are the
naming-flag and key-set warnings (there is no duplicate-name warning). -/
theorem c10_later_file_replaces (jfs : List (String × Rec)) (n : String) (v : Rec)
    (cfs : List (String × List Row)) (m : String) (rows : List Row) (agg : Agg)
    (hfold : foldRowsE rows initAgg = .ok agg) (hne : agg.fivelen.count ≠ 0)
    (cd : Dict Rec) (hcd : buildCsvData (cfs ++ [(m, rows)]) = .ok cd) :
    dlookup (buildJsonData (jfs ++ [(n, v)])) n = some v ∧
    dlookup cd m = some (finalizeDict agg) ∧
    (∀ flag jf cf out, parse_refine_log flag jf cf = .ok out →
        ∀ w ∈ out.2, w = Warning.incompatibleSampleNaming ∨ w = Warning.keySetMismatch) := by
  refine ⟨?_, ?_, ?_⟩
  · rw [buildJsonData, List.foldl_append]
    show dlookup (dinsert (buildJsonData jfs) n v) n = some v
    exact dlookup_dinsert_self _ _ _
  · exact dlookup_buildCsvAux_last m rows agg hfold hne cfs [] cd hcd
  · intro flag jf cf out hout w hw
    unfold parse_refine_log at hout
    cases hbuild : buildCsvData cf with
    | error e => rw [hbuild] at hout; cases hout
    | ok cd' =>
        rw [hbuild] at hout
        dsimp only at hout
        simp only [Except.ok.injEq] at hout
        subst hout
        revert hw
        show w ∈ warnsOf flag (keys (buildJsonData jf)) (keys cd') → _
        unfold warnsOf
        split_ifs with h1 h2
        · intro hw; exact Or.inl (List.mem_singleton.mp hw)
        · intro hw; cases hw
        · intro hw; exact Or.inr (List.mem_singleton.mp hw)

/-- Witness for C10: two JSON files and two CSV files sharing a sample name. -/
theorem c10_witness :
    foldRowsE [rowB] initAgg = .ok (foldAgg [pRowB]) ∧
    (foldAgg [pRowB]).fivelen.count ≠ 0 ∧
    buildCsvData ([("b", [goodRow])] ++ [("b", [rowB])]) =
      .ok [("b", finalizeDict (foldAgg [pRowB]))] ∧
    (dlookup (buildJsonData ([("a", [("k", Val.num 1)])] ++ [("a", [("k2", Val.num 2)])]))
        "a" = some [("k2", Val.num 2)] ∧
     dlookup [("b", finalizeDict (foldAgg [pRowB]))] "b" =
       some (finalizeDict (foldAgg [pRowB])) ∧
     (∀ flag jf cf out, parse_refine_log flag jf cf = .ok out →
        ∀ w ∈ out.2, w = Warning.incompatibleSampleNaming ∨ w = Warning.keySetMismatch)) :=
  ⟨rfl, by decide, rfl,
   c10_later_file_replaces [("a", [("k", Val.num 1)])] "a" [("k2", Val.num 2)]
     [("b", [goodRow])] "b" [rowB] (foldAgg [pRowB]) rfl (by decide)
     [("b", finalizeDict (foldAgg [pRowB]))] rfl⟩

/-! ### Claim C9 (corrected) -/

/-- C9 counterexample: merging mutates the loaded summary record in place —
after the merge, the summary object for `s1` no longer equals its loaded
value. -/
theorem c9_counterexample :
    hget (mergeH c9Heap [("s1", 0)] [("s1", [("min_fivelen", Val.num 10)])]).1 0 ≠
      hget c9Heap 0 := by
  intro hEq
  have h2 : (hget (mergeH c9Heap [("s1", 0)]
      [("s1", [("min_fivelen", Val.num 10)])]).1 0).length = 2 := rfl
  rw [hEq] at h2
  have h1 : (hget c9Heap 0).length = 1 := rfl
  rw [h1] at h2
  cases h2

/-- C9 (amended): the merge writes the merged record through the summary's
own dict object: for every sample present in the summary map, after merging
the summary record equals its loaded fields overlaid with the aggregate
fields (an in-place mutation), and the values of summary fields whose names
do not collide with aggregate fields are carried through unmodified. -/
theorem c9_merge_mutates_summary (h : Heap) (jd : Dict ℕ) (cd : Dict Rec)
    (s : String) (r : ℕ)
    (hs : dlookup jd s = some r) (hr : r < h.length)
    (hjk : (keys jd).Nodup) (hck : (keys cd).Nodup)
    (hinj : ∀ t r', t ≠ s → dlookup jd t = some r' → r' ≠ r) :
    hget (mergeH h jd cd).1 r = updRec (hget h r) (lookupD cd s []) ∧
    (∀ fld, fld ∉ keys (lookupD cd s []) →
        dlookup (hget (mergeH h jd cd).1 r) fld = dlookup (hget h r) fld) := by
  have hmem : s ∈ unionKeys (keys jd) (keys cd) :=
    (mem_unionKeys _ _ s).mpr (Or.inl (mem_keys_of_dlookup jd s r hs))
  obtain ⟨l1, l2, hul⟩ := List.append_of_mem hmem
  have hnd : (unionKeys (keys jd) (keys cd)).Nodup := unionKeys_nodup _ _ hjk hck
  rw [hul, List.nodup_append] at hnd
  obtain ⟨hnd1, hnd2, hdisj⟩ := hnd
  rw [List.nodup_cons] at hnd2
  have hs_nl1 : s ∉ l1 := fun hmem1 => hdisj hmem1 (List.mem_cons_self _ _)
  have hs_nl2 : s ∉ l2 := hnd2.1
  have hmain : hget (mergeH h jd cd).1 r = updRec (hget h r) (lookupD cd s []) := by
    rw [mergeH, hul, List.foldl_append, List.foldl_cons]
    have hph1 := mergeH_foldl_preserves jd cd r l1 (h, []) hr
      (fun t ht r' hl => hinj t r' (fun hts => hs_nl1 (hts ▸ ht)) hl)
    have hstep : (mergeHStep jd cd (l1.foldl (mergeHStep jd cd) (h, [])) s).1 =
        (l1.foldl (mergeHStep jd cd) (h, [])).1.set r
          (updRec (hget (l1.foldl (mergeHStep jd cd) (h, [])).1 r) (lookupD cd s [])) := by
      simp only [mergeHStep, hs]
    have hg2 : hget (mergeHStep jd cd (l1.foldl (mergeHStep jd cd) (h, [])) s).1 r =
        updRec (hget h r) (lookupD cd s []) := by
      rw [hstep, hget_set_self _ _ _ hph1.2, hph1.1]
    have hlen2 : r < ((mergeHStep jd cd (l1.foldl (mergeHStep jd cd) (h, [])) s).1).length := by
      rw [hstep, List.length_set]
      exact hph1.2
    have hph3 := mergeH_foldl_preserves jd cd r l2
      (mergeHStep jd cd (l1.foldl (mergeHStep jd cd) (h, [])) s) hlen2
      (fun t ht r' hl => hinj t r' (fun hts => hs_nl2 (hts ▸ ht)) hl)
    rw [hph3.1, hg2]
  exact ⟨hmain, fun fld hf => by rw [hmain, dlookup_updRec_not_mem _ _ _ hf]⟩

/-- Witness for C9's amended theorem at a concrete one-sample batch. -/
theorem c9_witness :
    dlookup ([("s1", 0)] : Dict ℕ) "s1" = some 0 ∧
    0 < c9Heap.length ∧
    (keys ([("s1", 0)] : Dict ℕ)).Nodup ∧
    (keys ([("s1", [("min_fivelen", Val.num 10)])] : Dict Rec)).Nodup ∧
    (∀ t r', t ≠ "s1" → dlookup ([("s1", 0)] : Dict ℕ) t = some r' → r' ≠ 0) ∧
    (hget (mergeH c9Heap [("s1", 0)] [("s1", [("min_fivelen", Val.num 10)])]).1 0 =
      updRec (hget c9Heap 0) (lookupD [("s1", [("min_fivelen", Val.num 10)])] "s1" []) ∧
     (∀ fld, fld ∉ keys (lookupD [("s1", [("min_fivelen", Val.num 10)])] "s1" []) →
        dlookup (hget (mergeH c9Heap [("s1", 0)]
          [("s1", [("min_fivelen", Val.num 10)])]).1 0) fld =
          dlookup (hget c9Heap 0) fld)) :=
  ⟨rfl, by decide, by decide, by decide,
   fun t r' hne hl => by
     have hx : ("s1" : String) ≠ t := fun hc => hne hc.symm
     simp [dlookup, hx] at hl,
   c9_merge_mutates_summary c9Heap [("s1", 0)] [("s1", [("min_fivelen", Val.num 10)])]
     "s1" 0 rfl (by decide) (by decide) (by decide)
     (fun t r' hne hl => by
       have hx : ("s1" : String) ≠ t := fun hc => hne hc.symm
       simp [dlookup, hx] at hl)⟩

end IsoseqRefine
